import Mathlib

/-!
Verification development for the LALA-experiment repository: a shallow
embedding of the measurement/batching pipeline of `src/ordered.py` and
`src/old/run.py`, together with theorems settling the spec's claims.

The embedding models Python string/list semantics explicitly:
`str.split()` (whitespace tokenisation dropping empty tokens),
`pat in s` (substring test), `str.replace(',', '')`, `int(...)`
(which raises on malformed input, modelled as `Option`), list
indexing `xs[3]` (which raises `IndexError` out of range, modelled
as `Option`), `range(a, b, st)`, and floating-point division idealised
as exact rational division `ℚ`.
-/

/-- Python `str.isspace`-style test for the characters `str.split()` splits on. -/
def pyWs (c : Char) : Bool :=
  c = ' ' || c = '\t' || c = '\n' || c = '\r' || c = '\x0b' || c = '\x0c'

/-- Tokeniser: Python `line.split()` — split on runs of whitespace, no empty tokens.
`acc` holds the current in-progress token, reversed. -/
def pySplitWsAux : List Char → List Char → List (List Char)
  | [], acc => if acc = [] then [] else [acc.reverse]
  | c :: rest, acc =>
    if pyWs c then
      if acc = [] then pySplitWsAux rest []
      else acc.reverse :: pySplitWsAux rest []
    else pySplitWsAux rest (c :: acc)

/-- Python `line.split()` on a string, as a list of token character lists. -/
def pyTokens (line : String) : List (List Char) :=
  pySplitWsAux line.data []

/-- Is `p` a (character-wise) prefix of `l`? -/
def listIsPref (p l : List Char) : Bool :=
  match p, l with
  | [], _ => true
  | _ :: _, [] => false
  | a :: as, b :: bs => a = b && listIsPref as bs

/-- Substring occurrence on character lists: Python `pat in line`. -/
def listIsSub (p : List Char) : List Char → Bool
  | [] => listIsPref p []
  | c :: rest => listIsPref p (c :: rest) || listIsSub p rest

/-- Python `pat in line` on strings. -/
def pyIn (pat line : String) : Bool :=
  listIsSub pat.data line.data

/-- Digits-only numeral parse (`none` on empty or a non-digit character). -/
def pyDigits : List Char → Option Nat
  | [] => none
  | l => l.foldlM (fun acc c => if c.isDigit then some (acc * 10 + (c.toNat - 48)) else none) 0

/-- Python `int(s)` on a whitespace-free token: optional sign then digits,
`ValueError` modelled as `none`. -/
def pyInt (s : List Char) : Option Int :=
  match s with
  | '-' :: rest => (pyDigits rest).map (fun n => -(n : Int))
  | '+' :: rest => (pyDigits rest).map (fun n => (n : Int))
  | l => (pyDigits l).map (fun n => (n : Int))

/-- Python `int(line.split()[3].replace(',', ''))`: fetch the 4th whitespace
token (`IndexError` → `none`), strip comma thousands separators, parse. -/
def token3Int (line : String) : Option Int :=
  match (pyTokens line).get? 3 with
  | none => none
  | some t => pyInt (t.filter (fun c => c ≠ ','))

/-- The literal label Python tests for the per-level miss line: note the TWO
spaces between `D1` and `misses` in the source. -/
def d1Label : String := "D1  misses"

/-- The literal label Python tests for the reference-count line. -/
def refsLabel : String := "D refs"

/-- The parsing loop shared by `run_valgrind` (src/ordered.py:87-93) and
`execute` (src/old/run.py:87-97): iterate over the stderr lines, keeping
mutable `(drefs, d1_miss)` state initialised to `(0, 0)`; a line containing
`"D1  misses"` overwrites the miss count with its 4th token, otherwise a line
containing `"D refs"` overwrites the reference count; a missing 4th token or
unparsable numeral raises (modelled as `none`). -/
def scanCounters : List String → Int × Int → Option (Int × Int)
  | [], acc => some acc
  | line :: rest, acc =>
    if pyIn d1Label line then
      match token3Int line with
      | none => none
      | some v => scanCounters rest (acc.1, v)
    else if pyIn refsLabel line then
      match token3Int line with
      | none => none
      | some v => scanCounters rest (v, acc.2)
    else scanCounters rest acc

/-- `run_valgrind` (src/ordered.py:78-96), measurement part: given the decoded
stderr lines of the cache simulator, parse the two counters and return
`d1_miss / drefs`, with sentinel `0` when `drefs == 0`; `none` models an
uncaught exception during parsing. Division is idealised as exact `ℚ`. -/
def run_valgrind (stderrLines : List String) : Option ℚ :=
  (scanCounters stderrLines (0, 0)).map
    (fun p => if p.1 = 0 then 0 else (p.2 : ℚ) / (p.1 : ℚ))

/-- Cold-miss estimate of `execute` (src/old/run.py:89-92):
`size * size * 3 / block` under true division when `remove_cold` is set,
else `0`. -/
def cold_miss (remove_cold : Bool) (size block : ℕ) : ℚ :=
  if remove_cold then ((size * size * 3 : ℕ) : ℚ) / (block : ℚ) else 0

/-- `execute` (src/old/run.py:75-100), measurement part: the cold-miss
estimate is computed eagerly BEFORE the scan (src/old/run.py:89-92), so with
removal enabled and a zero block size the division raises
`ZeroDivisionError` on every stream (modelled `none`); otherwise parse the
counters from the stderr lines and return `(d1_miss - cold_miss) / drefs`,
with sentinel `0` when `drefs == 0`. -/
def execute (remove_cold : Bool) (size block : ℕ) (stderrLines : List String) :
    Option ℚ :=
  if remove_cold ∧ block = 0 then none
  else
    (scanCounters stderrLines (0, 0)).map
      (fun p =>
        if p.1 = 0 then 0
        else ((p.2 : ℚ) - cold_miss remove_cold size block) / (p.1 : ℚ))

/-- Associativity resolution (src/ordered.py:79-80 and src/old/run.py:132-133):
when `assoc` is not supplied, use `cache_size // block_size` (Python floor
division, which on naturals is Lean's `Nat` division). -/
def resolve_assoc (cache_size block_size : ℕ) (assoc : Option ℕ) : ℕ :=
  match assoc with
  | none => cache_size / block_size
  | some a => a

/-- The fixed loop-role tuple `orders` of src/ordered.py:99,127. -/
def loop_orders : List String := ["I_LOOP", "J_LOOP", "K_LOOP"]

/-- `order_generator` (src/ordered.py:98-103): for `i, j < 3` with `i ≠ j`,
yield `(orders[i], orders[j], orders[3-i-j])`; modelled as the list of yielded
triples (as 3-element lists). -/
def order_generator : List (List String) :=
  (List.range 3).flatMap (fun i =>
    (List.range 3).flatMap (fun j =>
      if i ≠ j then
        [[loop_orders.getD i "", loop_orders.getD j "", loop_orders.getD (3 - i - j) ""]]
      else []))

/-- Python `s.split(sep)` for a single separator character: splits on every
occurrence, keeping empty pieces. -/
def splitOnChar (sep : Char) : List Char → List (List Char)
  | [] => [[]]
  | c :: rest =>
    if c = sep then [] :: splitOnChar sep rest
    else
      match splitOnChar sep rest with
      | [] => [[c]]
      | h :: t => (c :: h) :: t

/-- `order_to_name` (src/ordered.py:105-106): `''.join(i.split('_')[0] for i
in order)`. -/
def order_to_name (order : List String) : String :=
  String.mk (order.flatMap (fun i => (splitOnChar '_' i.data).headD []))

/-- Python `'IJK'.index(c)`: position of the first occurrence, `ValueError`
(modelled `none`) when absent. -/
def pyStrIndex (s : String) (c : Char) : Option ℕ :=
  s.data.findIdx? (fun x => x = c)

/-- `name_to_order` (src/ordered.py:126-128):
`[orders['IJK'.index(i)] for i in name]`; an unknown letter raises, modelled
as `none` for the whole comprehension. -/
def name_to_order (name : String) : Option (List String) :=
  name.data.mapM (fun c => (pyStrIndex "IJK" c).bind (fun k => loop_orders.get? k))

/-- Python `range(a, b, st)` for a positive step: the list `[a, a+st, ...)`
of all such values below `b`, i.e. `⌈(b-a)/st⌉` terms. -/
def pyRangeList (a b st : ℕ) : List ℕ :=
  List.range' a ((b - a + st - 1) / st) st

/-- Python `range(a, b, st)`: a zero step raises `ValueError` at
construction (modelled `none`); a positive step gives the usual list. -/
def pyRange (a b st : ℕ) : Option (List ℕ) :=
  if st = 0 then none else some (pyRangeList a b st)

/-- The per-run configuration of src/old/run.py (`argparse` namespace after
`main` has resolved the associativity default). -/
structure Args where
  dtype : String
  size : ℕ
  cache : ℕ
  block : ℕ
  assoc : ℕ
  remove_cold : Bool
  batch : String
  batch_start : ℕ
  batch_end : ℕ
  batch_step : ℕ
deriving DecidableEq

/-- The per-key configuration update of `batch_execute`
(src/old/run.py:106-111): deep-copy the args; sweeping `cache` sets the cache
to `i` and recomputes `assoc = cache // block`; sweeping `size` sets the size
to `i`; all other fields are unchanged. -/
def batch_unit (args : Args) (i : ℕ) : Args :=
  if args.batch = "cache" then { args with cache := i, assoc := i / args.block }
  else if args.batch = "size" then { args with size := i }
  else args

/-- The swept keys of `batch_execute` (src/old/run.py:105):
`range(batch_start, batch_end + 1, batch_step)`; `none` models the
`ValueError` of a zero step. -/
def batch_keys (args : Args) : Option (List ℕ) :=
  pyRange args.batch_start (args.batch_end + 1) args.batch_step

/-- The result-collection loop of `batch_execute` (src/old/run.py:113-114):
`for k, v in tasks.items(): res[k] = await v` — awaiting a failed unit
re-raises its exception and aborts the sweep with no results (`none`). -/
def awaitAll : List (ℕ × Option ℚ) → Option (List (ℕ × ℚ))
  | [] => some []
  | (k, v) :: rest =>
    match v with
    | none => none
    | some q => (awaitAll rest).map (fun r => (k, q) :: r)

/-- `batch_execute` (src/old/run.py:102-115): one task per swept key,
results collected keyed by the swept value in generation order (Python dicts
preserve insertion order); a zero step or any failed unit aborts the whole
sweep. The external simulator's stderr for key `i` is supplied by the oracle
`streams i`. -/
def batch_execute (streams : ℕ → List String) (args : Args) :
    Option (List (ℕ × ℚ)) :=
  (batch_keys args).bind (fun keys =>
    awaitAll (keys.map (fun i =>
      (i, execute (batch_unit args i).remove_cold (batch_unit args i).size
            (batch_unit args i).block (streams i)))))

/-- The outer `m`-loop of `data_collect_tasks` (src/ordered.py:115-117): for
each `m`, the inner `range(*n_range)` is constructed afresh, so a zero
`n`-step raises only when the `m`-loop actually iterates. -/
def pairsLoop (n_range : ℕ × ℕ × ℕ) : List ℕ → Option (List (ℕ × ℕ))
  | [] => some []
  | m :: rest =>
    match pyRange n_range.1 n_range.2.1 n_range.2.2 with
    | none => none
    | some ns => (pairsLoop n_range rest).map (fun r => ns.map (fun n => (m, n)) ++ r)

/-- The `(m, n)` sweep points of `data_collect_tasks` (src/ordered.py:115-117):
`m` outer over `m_range`, `n` inner over `n_range`; `none` models the
generator raising `ValueError` on a zero step. -/
def data_collect_pairs (m_range n_range : ℕ × ℕ × ℕ) :
    Option (List (ℕ × ℕ)) :=
  (pyRange m_range.1 m_range.2.1 m_range.2.2).bind (fun ms => pairsLoop n_range ms)

/-- One unit of `data_collect_tasks` (src/ordered.py:110-114): compile, run
`run_valgrind`, return `(m, n, mr)`; the simulator stderr for the point is
supplied by the oracle `streams`. -/
def collect_task (streams : ℕ × ℕ → List String) (p : ℕ × ℕ) :
    ℕ × ℕ × Option ℚ :=
  (p.1, p.2, run_valgrind (streams p))

/-- The flattened slices `tasks[i:i+bs]` for `i ∈ range(0, len(tasks), bs)`
with a positive batch width `bs`. -/
def pySliceCat (bs : ℕ) (l : List (ℕ × ℕ × Option ℚ)) :
    List (ℕ × ℕ × Option ℚ) :=
  (pyRangeList 0 l.length bs).flatMap (fun i => (l.drop i).take bs)

/-- The batching loop of `batched_execute` (src/ordered.py:122-123):
`for i in range(0, len(tasks), batch_size): ... tasks[i:i+batch_size]`,
which raises `ValueError` for a zero batch size (modelled `none`). -/
def pySlices (bs : ℕ) (l : List (ℕ × ℕ × Option ℚ)) :
    Option (List (ℕ × ℕ × Option ℚ)) :=
  (pyRange 0 l.length bs).map (fun idxs =>
    idxs.flatMap (fun i => (l.drop i).take bs))

/-- Awaiting the gathered units (src/ordered.py:123): `asyncio.gather`
returns the units' values in slice order but re-raises the first unit
exception, aborting the sweep with no result list (`none`). -/
def gatherUnits : List (ℕ × ℕ × Option ℚ) → Option (List (ℕ × ℕ × ℚ))
  | [] => some []
  | (m, n, v) :: rest =>
    match v with
    | none => none
    | some q => (gatherUnits rest).map (fun r => (m, n, q) :: r)

/-- `batched_execute` (src/ordered.py:119-124): materialise all tasks of
`data_collect_tasks`, then await batch results in slice order; a zero range
step, a zero batch size or any failing unit aborts with no result list. -/
def batched_execute (streams : ℕ × ℕ → List String)
    (m_range n_range : ℕ × ℕ × ℕ) (batch_size : ℕ) :
    Option (List (ℕ × ℕ × ℚ)) :=
  (data_collect_pairs m_range n_range).bind (fun pairs =>
    (pySlices batch_size (pairs.map (collect_task streams))).bind gatherUnits)

/-! ## Helper lemmas about the scanning loop -/

/-- If every line matching the miss label parses to `vm` and every line
matching only the refs label parses to `vr`, the scan returns `vr`/`vm`
when such a line exists and otherwise keeps the accumulator component. -/
theorem scanCounters_fixed (vm vr : ℤ) (ls : List String) :
    ∀ a b : ℤ,
      (∀ l ∈ ls, pyIn d1Label l = true → token3Int l = some vm) →
      (∀ l ∈ ls, pyIn d1Label l = false → pyIn refsLabel l = true → token3Int l = some vr) →
      scanCounters ls (a, b) =
        some (if ls.any (fun l => !pyIn d1Label l && pyIn refsLabel l) then vr else a,
              if ls.any (fun l => pyIn d1Label l) then vm else b) := by
  induction ls with
  | nil => intro a b _ _; simp [scanCounters]
  | cons l ls ih =>
    intro a b hm hr
    have hm' : ∀ x ∈ ls, pyIn d1Label x = true → token3Int x = some vm :=
      fun x hx => hm x (List.mem_cons_of_mem _ hx)
    have hr' : ∀ x ∈ ls, pyIn d1Label x = false → pyIn refsLabel x = true →
        token3Int x = some vr :=
      fun x hx => hr x (List.mem_cons_of_mem _ hx)
    by_cases h1 : pyIn d1Label l = true
    · have hv : token3Int l = some vm := hm l (List.mem_cons_self l ls) h1
      simp only [scanCounters, h1, if_true, hv]
      rw [ih a vm hm' hr']
      simp [h1]
    · have h1' : pyIn d1Label l = false := by simpa using h1
      by_cases h2 : pyIn refsLabel l = true
      · have hv : token3Int l = some vr := hr l (List.mem_cons_self l ls) h1' h2
        simp only [scanCounters, h1', Bool.false_eq_true, if_false, h2, if_true, hv]
        rw [ih vr b hm' hr']
        simp [h1', h2]
      · have h2' : pyIn refsLabel l = false := by simpa using h2
        simp only [scanCounters, h1', h2', Bool.false_eq_true, if_false]
        rw [ih a b hm' hr']
        simp [h1', h2']

/-- If no line contains the refs label, the scan never overwrites the
reference-count component of the accumulator. -/
theorem scanCounters_no_refs (ls : List String) :
    ∀ (a b : ℤ) (p : ℤ × ℤ), (∀ l ∈ ls, pyIn refsLabel l = false) →
      scanCounters ls (a, b) = some p → p.1 = a := by
  induction ls with
  | nil =>
    intro a b p _ h
    simp only [scanCounters, Option.some.injEq] at h
    rw [← h]
  | cons l ls ih =>
    intro a b p hno h
    have hno' : ∀ x ∈ ls, pyIn refsLabel x = false :=
      fun x hx => hno x (List.mem_cons_of_mem _ hx)
    have hln : pyIn refsLabel l = false := hno l (List.mem_cons_self l ls)
    by_cases h1 : pyIn d1Label l = true
    · simp only [scanCounters, h1, if_true] at h
      cases hv : token3Int l with
      | none => rw [hv] at h; exact absurd h (by simp)
      | some v => rw [hv] at h; exact ih a v p hno' h
    · have h1' : pyIn d1Label l = false := by simpa using h1
      simp only [scanCounters, h1', hln, Bool.false_eq_true, if_false] at h
      exact ih a b p hno' h

/-! ## Claims -/

/-- C1 (amended): the miss label carries TWO spaces (`"D1  misses"`), and a
matching line must carry the count as its 4th whitespace token.  For every
diagnostic stream in which some line contains `"D1  misses"`, some line
contains `"D refs"` but not `"D1  misses"`, every line containing
`"D1  misses"` yields 200 as its comma-stripped 4th token, and every line
containing `"D refs"` (only) yields 1,000, the measurement runner returns
`200/1000 = 0.2`. -/
theorem measured_ratio_of_labelled_lines (ls : List String)
    (hm : ∀ l ∈ ls, pyIn d1Label l = true → token3Int l = some 200)
    (hr : ∀ l ∈ ls, pyIn d1Label l = false → pyIn refsLabel l = true →
      token3Int l = some 1000)
    (hml : ∃ l ∈ ls, pyIn d1Label l = true)
    (hrl : ∃ l ∈ ls, pyIn d1Label l = false ∧ pyIn refsLabel l = true) :
    run_valgrind ls = some (1 / 5) := by
  have hscan := scanCounters_fixed 200 1000 ls 0 0 hm hr
  have h1 : ls.any (fun l => pyIn d1Label l) = true := by
    obtain ⟨l, hl, h⟩ := hml
    exact List.any_eq_true.mpr ⟨l, hl, h⟩
  have h2 : ls.any (fun l => !pyIn d1Label l && pyIn refsLabel l) = true := by
    obtain ⟨l, hl, hf, ht⟩ := hrl
    exact List.any_eq_true.mpr ⟨l, hl, by simp [hf, ht]⟩
  rw [run_valgrind, hscan, h1, h2]
  norm_num

/-- C1 (witness): a realistic pair of simulator lines, labels and 4th-token
values as in the claim, gives ratio 1/5. -/
theorem measured_ratio_of_labelled_lines_witness :
    run_valgrind ["==1== D refs: 1,000 x", "==1== D1  misses: 200 x"] =
      some (1 / 5) :=
  measured_ratio_of_labelled_lines _ (by decide) (by decide)
    ⟨"==1== D1  misses: 200 x", by decide⟩
    ⟨"==1== D refs: 1,000 x", by decide⟩

/-- C1 (counterexample): on a stream consisting of the claim's literal lines
`"D refs: 1,000"` and `"D1 misses: 200"`, the code does NOT compute 0.2: the
refs line has only three whitespace tokens, so `line.split()[3]` raises
`IndexError` (and the single-space `"D1 misses"` does not match the
two-space label anyway). -/
theorem measured_ratio_literal_lines_raise :
    run_valgrind ["D refs: 1,000", "D1 misses: 200"] = none ∧
      run_valgrind ["D refs: 1,000", "D1 misses: 200"] ≠ some (1 / 5) := by
  have h : run_valgrind ["D refs: 1,000", "D1 misses: 200"] = none := by decide
  exact ⟨h, by rw [h]; exact fun hc => Option.noConfusion hc⟩

/-- C2 (amended): the cold-miss estimate is the EXACT rational `3*n*n/b`
(`true` division, no truncation), the adjusted ratio is
`(misses - cold_misses) / references` with no clamping, and at
`n = 16, b = 32` the estimate is 24. -/
theorem cold_miss_spec (n b : ℕ) (hb : 0 < b) (lines : List String) (r d : ℤ)
    (hscan : scanCounters lines (0, 0) = some (r, d)) (hr : r ≠ 0) :
    cold_miss true n b = (3 * n * n : ℚ) / (b : ℚ) ∧
    execute true n b lines = some (((d : ℚ) - cold_miss true n b) / (r : ℚ)) ∧
    cold_miss true 16 32 = 24 := by
  refine ⟨?_, ?_, by norm_num [cold_miss]⟩
  · simp only [cold_miss, if_true]
    push_cast
    ring
  · have hg : ¬((true : Bool) = true ∧ b = 0) := by
      rintro ⟨_, hb0⟩
      omega
    unfold execute
    rw [if_neg hg, hscan, Option.map_some']
    simp [hr]

/-- C2 (witness): instance of `cold_miss_spec` at `n = 16, b = 32` on a
concrete stream with 100 references and 50 misses. -/
theorem cold_miss_spec_witness :
    cold_miss true 16 32 = (3 * 16 * 16 : ℚ) / (32 : ℚ) ∧
    execute true 16 32 ["a D refs: 100 b", "x D1  misses: 50 y"] =
      some (((50 : ℚ) - cold_miss true 16 32) / (100 : ℚ)) ∧
    cold_miss true 16 32 = 24 :=
  cold_miss_spec 16 32 (by norm_num) ["a D refs: 100 b", "x D1  misses: 50 y"]
    100 50 (by decide) (by decide)

/-- C2 (counterexample): at `n = 2, b = 32` the code's estimate is the
non-integer `3/8`, not `3*2*2/32` truncated toward an integer (which is 0):
Python's `/` is true division, nothing is truncated. -/
theorem cold_miss_not_truncated :
    cold_miss true 2 32 = 3 / 8 ∧
      cold_miss true 2 32 ≠ (((3 * 2 * 2 : ℤ) / 32 : ℤ) : ℚ) := by
  norm_num [cold_miss]

/-- C3 (amended): run_valgrind's value is `0` (the zero-reference sentinel)
or `d1_miss/drefs`, and lies in `[0,1]` whenever the parsed miss count lies
between `0` and the parsed reference count; `execute` without cold-miss
removal returns the same value.  (With cold-miss removal the value can leave
`[0,1]`, see the counterexample.) -/
theorem ratio_in_unit_interval (lines : List String) (r d : ℤ)
    (hscan : scanCounters lines (0, 0) = some (r, d)) (hd : 0 ≤ d)
    (hdr : d ≤ r) :
    ∃ q : ℚ, run_valgrind lines = some q ∧ 0 ≤ q ∧ q ≤ 1 ∧
      ∀ s b : ℕ, execute false s b lines = some q := by
  by_cases h0 : r = 0
  · refine ⟨0, ?_, le_refl 0, by norm_num, ?_⟩
    · unfold run_valgrind
      rw [hscan, Option.map_some']
      simp [h0]
    · intro s b
      unfold execute
      rw [if_neg (by simp), hscan, Option.map_some']
      simp [h0]
  · have hrpos : 0 < r := lt_of_le_of_ne (le_trans hd hdr) (Ne.symm h0)
    refine ⟨(d : ℚ) / (r : ℚ), ?_, ?_, ?_, ?_⟩
    · unfold run_valgrind
      rw [hscan, Option.map_some']
      simp [h0]
    · apply div_nonneg
      · exact_mod_cast hd
      · exact_mod_cast le_of_lt hrpos
    · rw [div_le_one (by exact_mod_cast hrpos)]
      exact_mod_cast hdr
    · intro s b
      unfold execute
      rw [if_neg (by simp), hscan, Option.map_some']
      simp [h0, cold_miss]

/-- C3 (witness): instance of `ratio_in_unit_interval` on a stream with 100
references and 50 misses. -/
theorem ratio_in_unit_interval_witness :
    ∃ q : ℚ, run_valgrind ["a D refs: 100 b", "x D1  misses: 50 y"] = some q ∧
      0 ≤ q ∧ q ≤ 1 ∧
      ∀ s b : ℕ, execute false s b ["a D refs: 100 b", "x D1  misses: 50 y"] =
        some q :=
  ratio_in_unit_interval _ 100 50 (by decide) (by decide) (by decide)

/-- C3 (counterexample): with cold-miss removal enabled (`execute`,
src/old/run.py) the returned value can be negative, hence not in `[0,1]`: a
stream with 100 references and no miss line yields `(0 - 24)/100 = -6/25`
at `size = 16, block = 32`. -/
theorem ratio_negative_with_cold_removal :
    execute true 16 32 ["a D refs: 100 b"] = some (-(6 / 25) : ℚ) ∧
      ¬ (0 : ℚ) ≤ -(6 / 25) := by
  have hscan : scanCounters ["a D refs: 100 b"] (0, 0) = some (100, 0) := by
    decide
  constructor
  · unfold execute
    rw [if_neg (by simp), hscan, Option.map_some']
    norm_num [cold_miss]
  · norm_num

/-- C4 (amended): on every diagnostic stream with no `"D refs"` line on which
the scanning loop completes without raising (equivalently, every line
containing `"D1  misses"` has a parseable comma-stripped 4th token), both
runners return exactly `0`, the defined sentinel, with no division error —
for `execute`, provided its eager cold-miss division does not itself raise
`ZeroDivisionError` (nonzero block size whenever removal is enabled). -/
theorem no_refs_zero_sentinel (lines : List String) (p : ℤ × ℤ)
    (hno : ∀ l ∈ lines, pyIn refsLabel l = false)
    (hscan : scanCounters lines (0, 0) = some p) :
    run_valgrind lines = some 0 ∧
      ∀ (rc : Bool) (s b : ℕ), (rc = true → 0 < b) →
        execute rc s b lines = some 0 := by
  have h1 : p.1 = 0 := scanCounters_no_refs lines 0 0 p hno hscan
  constructor
  · unfold run_valgrind
    rw [hscan, Option.map_some']
    simp [h1]
  · intro rc s b hrc
    have hg : ¬(rc = true ∧ b = 0) := by
      rintro ⟨hrc', hb0⟩
      have := hrc hrc'
      omega
    unfold execute
    rw [if_neg hg, hscan, Option.map_some']
    simp [h1]

/-- C4 (witness): a stream with a well-formed miss line but no refs line
yields the sentinel 0 from both runners, with and without cold-miss
removal. -/
theorem no_refs_zero_sentinel_witness :
    run_valgrind ["hello", "x D1  misses: 7 y"] = some 0 ∧
      execute true 16 32 ["hello", "x D1  misses: 7 y"] = some 0 ∧
      execute false 0 0 ["hello", "x D1  misses: 7 y"] = some 0 := by
  have h := no_refs_zero_sentinel ["hello", "x D1  misses: 7 y"] (0, 7)
    (by decide) (by decide)
  exact ⟨h.1, h.2 true 16 32 (fun _ => by norm_num),
    h.2 false 0 0 (fun hf => absurd hf Bool.false_ne_true)⟩

/-- C4 (counterexample): the claim is not true of EVERY stream without a
refs line: a malformed miss line (`int('oops')` raises `ValueError`) makes
the code raise instead of returning the sentinel 0. -/
theorem no_refs_parse_error :
    (∀ l ∈ ["zz D1  misses: oops"], pyIn refsLabel l = false) ∧
      run_valgrind ["zz D1  misses: oops"] = none := by
  constructor
  · decide
  · decide

/-- C5: when associativity is not explicitly supplied, the associativity used
is `cache_size / block_size` (the source's floor division `//`, which is
exact `Nat` division here), i.e. full associativity. -/
theorem resolve_assoc_defaults_full (cache_size block_size : ℕ) :
    resolve_assoc cache_size block_size none = cache_size / block_size := rfl

/-- C6: `order_generator` yields exactly 6 triples, pairwise distinct, and
every yielded triple is a permutation of the 3 distinct role symbols (so no
triple has a duplicate role). -/
theorem order_generator_six_perms :
    order_generator.length = 6 ∧ order_generator.Nodup ∧
      ∀ o ∈ order_generator, o.Perm loop_orders := by
  refine ⟨by decide, by decide, by decide⟩

/-! ## Helper lemmas about slicing -/

/-- Chunk-count arithmetic: for `0 < bs` and `0 < n`,
`⌈n/bs⌉ = ⌈(n-bs)/bs⌉ + 1`. -/
theorem chunkCount_succ (bs n : ℕ) (hbs : 0 < bs) (hn : 0 < n) :
    (n + bs - 1) / bs = (n - bs + bs - 1) / bs + 1 := by
  by_cases h : n ≤ bs
  · have h1 : n - bs = 0 := Nat.sub_eq_zero_of_le h
    rw [h1]
    have e1 : n + bs - 1 = (n - 1) + bs := by omega
    rw [e1, Nat.add_div_right _ hbs]
    have e2 : (n - 1) / bs = 0 := Nat.div_eq_of_lt (by omega)
    have e3 : (0 + bs - 1) / bs = 0 := Nat.div_eq_of_lt (by omega)
    omega
  · have e1 : n + bs - 1 = (n - 1) + bs := by omega
    have e2 : n - bs + bs - 1 = (n - 1 - bs) + bs := by omega
    have e3 : n - 1 = (n - 1 - bs) + bs := by omega
    rw [e1, e2, Nat.add_div_right _ hbs, Nat.add_div_right _ hbs]
    conv_lhs => rw [e3, Nat.add_div_right _ hbs]

/-- The slice loop on an empty task list produces nothing. -/
theorem pySliceCat_nil (bs : ℕ) (hbs : 0 < bs) :
    pySliceCat bs ([] : List (ℕ × ℕ × Option ℚ)) = [] := by
  have h0 : (([] : List (ℕ × ℕ × Option ℚ)).length - 0 + bs - 1) / bs = 0 :=
    Nat.div_eq_of_lt (by simp; omega)
  unfold pySliceCat pyRangeList
  rw [h0]
  rfl

/-- Concatenated slices starting at offset `bs` are concatenated slices of
the dropped list. -/
theorem flatMap_range'_shift (k bs : ℕ) (f : ℕ → List (ℕ × ℕ × Option ℚ)) :
    (List.range' bs k bs).flatMap f =
      (List.range' 0 k bs).flatMap (fun i => f (bs + i)) := by
  have h := List.map_add_range' bs 0 k bs
  rw [Nat.add_zero] at h
  rw [← h, List.flatMap_map]

/-- One step of the slice loop: the first slice is `take bs`, the remaining
iterations work on `drop bs`. -/
theorem pySliceCat_take_drop (bs : ℕ) (hbs : 0 < bs)
    (l : List (ℕ × ℕ × Option ℚ)) (hl : l ≠ []) :
    pySliceCat bs l = l.take bs ++ pySliceCat bs (l.drop bs) := by
  have hn : 0 < l.length := List.length_pos.mpr hl
  unfold pySliceCat pyRangeList
  rw [List.length_drop]
  simp only [Nat.sub_zero]
  rw [chunkCount_succ bs l.length hbs hn, List.range'_succ, List.flatMap_cons,
    Nat.zero_add, List.drop_zero, flatMap_range'_shift]
  simp only [List.drop_drop]

/-- The concatenation of the slices `tasks[i:i+bs]` for
`i ∈ range(0, len(tasks), bs)` is the task list itself, for any positive
batch width. -/
theorem pySliceCat_id (bs : ℕ) (hbs : 0 < bs) (l : List (ℕ × ℕ × Option ℚ)) :
    pySliceCat bs l = l := by
  have key : ∀ n (l : List (ℕ × ℕ × Option ℚ)), l.length ≤ n →
      pySliceCat bs l = l := by
    intro n
    induction n with
    | zero =>
      intro l h
      have he : l = [] := List.eq_nil_of_length_eq_zero (Nat.le_zero.mp h)
      rw [he, pySliceCat_nil bs hbs]
    | succ n ih =>
      intro l h
      by_cases hl : l = []
      · rw [hl, pySliceCat_nil bs hbs]
      · rw [pySliceCat_take_drop bs hbs l hl, ih (l.drop bs) ?_,
          List.take_append_drop]
        rw [List.length_drop]
        omega
  exact key l.length l le_rfl

/-- `pySlices` with a positive batch width succeeds, yielding the flattened
slices. -/
theorem pySlices_pos (bs : ℕ) (hbs : 0 < bs) (l : List (ℕ × ℕ × Option ℚ)) :
    pySlices bs l = some (pySliceCat bs l) := by
  unfold pySlices pyRange pySliceCat pyRangeList
  rw [if_neg (Nat.pos_iff_ne_zero.mp hbs)]
  rfl

/-- A successful `awaitAll` keeps the keys of its tasks, in order. -/
theorem awaitAll_fst : ∀ (l : List (ℕ × Option ℚ)) (r : List (ℕ × ℚ)),
    awaitAll l = some r → r.map Prod.fst = l.map Prod.fst := by
  intro l
  induction l with
  | nil =>
    intro r h
    cases h
    rfl
  | cons kv rest ih =>
    intro r h
    obtain ⟨k, v⟩ := kv
    cases v with
    | none => simp [awaitAll] at h
    | some q =>
      simp only [awaitAll] at h
      cases hrest : awaitAll rest with
      | none => rw [hrest] at h; exact absurd h (by simp)
      | some r' =>
        rw [hrest] at h
        simp only [Option.map_some', Option.some.injEq] at h
        subst h
        simp [ih r' hrest]

/-- A successful `gatherUnits` run is exactly the task list with each
`Option` value peeled, in the same order. -/
theorem gatherUnits_eq :
    ∀ (l : List (ℕ × ℕ × Option ℚ)) (r : List (ℕ × ℕ × ℚ)),
      gatherUnits l = some r → l = r.map (fun t => (t.1, t.2.1, some t.2.2)) := by
  intro l
  induction l with
  | nil =>
    intro r h
    cases h
    rfl
  | cons u rest ih =>
    intro r h
    obtain ⟨m, n, v⟩ := u
    cases v with
    | none => simp [gatherUnits] at h
    | some q =>
      simp only [gatherUnits] at h
      cases hrest : gatherUnits rest with
      | none => rw [hrest] at h; exact absurd h (by simp)
      | some r' =>
        rw [hrest] at h
        simp only [Option.map_some', Option.some.injEq] at h
        subst h
        simp only [List.map_cons]
        rw [ih r' hrest]

/-- Peeled gather results project back to the generated pairs, in order. -/
theorem collect_peel_pairs (streams : ℕ × ℕ → List String) :
    ∀ (res : List (ℕ × ℕ × ℚ)) (pairs : List (ℕ × ℕ)),
      pairs.map (collect_task streams) =
        res.map (fun t => (t.1, t.2.1, some t.2.2)) →
      res.map (fun t => (t.1, t.2.1)) = pairs := by
  intro res
  induction res with
  | nil =>
    intro pairs h
    simp only [List.map_nil] at h
    cases pairs with
    | nil => rfl
    | cons p ps => exact absurd h (by simp)
  | cons t r ih =>
    intro pairs h
    cases pairs with
    | nil => exact absurd h (by simp)
    | cons p ps =>
      simp only [List.map_cons, List.cons.injEq] at h
      obtain ⟨hhead, htail⟩ := h
      obtain ⟨pm, pn⟩ := p
      simp only [collect_task, Prod.mk.injEq] at hhead
      obtain ⟨h1, h2, h3⟩ := hhead
      simp only [List.map_cons, List.cons.injEq]
      exact ⟨by rw [← h1, ← h2], ih ps htail⟩

/-- C7: every completed sweep with `batch_start = 256`, `batch_end = 1024`,
`batch_step = 256` returns exactly 4 keyed results with keys
`[256, 512, 768, 1024]` (end value included), one Measurement Result per
key.  (A failing unit re-raises at `res[k] = await v` and aborts the sweep
with no result set at all, so the key structure is asserted of every run
that produces one; the witness shows such a run.) -/
theorem cache_sweep_four_keys (streams : ℕ → List String) (args : Args)
    (h1 : args.batch_start = 256) (h2 : args.batch_end = 1024)
    (h3 : args.batch_step = 256) (res : List (ℕ × ℚ))
    (hres : batch_execute streams args = some res) :
    res.map Prod.fst = [256, 512, 768, 1024] ∧ res.length = 4 := by
  have hkeys : batch_keys args = some [256, 512, 768, 1024] := by
    simp only [batch_keys, h1, h2, h3]
    rfl
  unfold batch_execute at hres
  rw [hkeys, Option.some_bind] at hres
  have hfst := awaitAll_fst _ res hres
  rw [List.map_map] at hfst
  have hmap : res.map Prod.fst = [256, 512, 768, 1024] := by
    rw [hfst]
    rfl
  refine ⟨hmap, ?_⟩
  have hlen := congrArg List.length hmap
  rw [List.length_map] at hlen
  exact hlen

/-- C7 (witness): a completing sweep for the configuration
`--batch cache --batch-start 256 --batch-end 1024 --batch-step 256` (every
unit returns the zero-reference sentinel) yields the 4 keys. -/
theorem cache_sweep_four_keys_witness :
    [((256 : ℕ), (0 : ℚ)), (512, 0), (768, 0), (1024, 0)].map Prod.fst =
        [256, 512, 768, 1024] ∧
      [((256 : ℕ), (0 : ℚ)), (512, 0), (768, 0), (1024, 0)].length = 4 :=
  cache_sweep_four_keys (fun _ => [])
    ⟨"double", 128, 1024, 32, 32, false, "cache", 256, 1024, 256⟩ rfl rfl rfl
    [(256, 0), (512, 0), (768, 0), (1024, 0)] rfl

/-- C8: every completed sweep preserves generation order: `batch_execute`'s
result list carries exactly the swept keys of
`range(batch_start, batch_end+1, batch_step)`, in generation (strictly
ascending) order; and `batched_execute`'s result list is ordered exactly as
the `(m, n)` pairs are generated (`m` outer, `n` inner), regardless of the
(positive) batch width, each entry the awaited value of its unit's task. -/
theorem sweep_order_preserved (streams1 : ℕ → List String) (args : Args)
    (streams2 : ℕ × ℕ → List String) (mr nr : ℕ × ℕ × ℕ) (bs : ℕ)
    (hbs : 0 < bs) (res1 : List (ℕ × ℚ)) (res2 : List (ℕ × ℕ × ℚ))
    (pairs : List (ℕ × ℕ))
    (h1 : batch_execute streams1 args = some res1)
    (h2 : batched_execute streams2 mr nr bs = some res2)
    (hp : data_collect_pairs mr nr = some pairs) :
    batch_keys args = some (res1.map Prod.fst) ∧
      (res1.map Prod.fst).Pairwise (· < ·) ∧
      res2.map (fun t => (t.1, t.2.1)) = pairs ∧
      pairs.map (collect_task streams2) =
        res2.map (fun t => (t.1, t.2.1, some t.2.2)) := by
  unfold batch_execute at h1
  cases hk : batch_keys args with
  | none =>
    rw [hk] at h1
    exact absurd h1 (by simp)
  | some keys =>
    rw [hk, Option.some_bind] at h1
    have hfst := awaitAll_fst _ res1 h1
    rw [List.map_map] at hfst
    have hkeyseq : res1.map Prod.fst = keys := by
      rw [hfst]
      exact List.map_id _
    unfold batch_keys pyRange at hk
    have hstep : args.batch_step ≠ 0 := by
      intro h0
      rw [if_pos h0] at hk
      exact Option.noConfusion hk
    rw [if_neg hstep] at hk
    have hkeysval : keys =
        pyRangeList args.batch_start (args.batch_end + 1) args.batch_step :=
      (Option.some.inj hk).symm
    unfold batched_execute at h2
    rw [hp, Option.some_bind, pySlices_pos bs hbs, Option.some_bind,
      pySliceCat_id bs hbs] at h2
    have hpeel := gatherUnits_eq _ res2 h2
    refine ⟨?_, ?_, collect_peel_pairs streams2 res2 pairs hpeel, hpeel⟩
    · rw [hkeyseq]
    · rw [hkeyseq, hkeysval]
      unfold pyRangeList
      exact List.pairwise_lt_range' _ _ _ (Nat.pos_of_ne_zero hstep)

/-- C8 (witness): a completing run at batch width 2 over a 2×2 sweep with
step 1 (every unit returns the zero-reference sentinel): the keys come back
in ascending generation order and the `(m, n)` results in generation order. -/
theorem sweep_order_preserved_witness :
    batch_keys ⟨"double", 8, 1024, 32, 32, false, "size", 1, 3, 1⟩ =
        some ([((1 : ℕ), (0 : ℚ)), (2, 0), (3, 0)].map Prod.fst) ∧
      ([((1 : ℕ), (0 : ℚ)), (2, 0), (3, 0)].map Prod.fst).Pairwise (· < ·) ∧
      [((1 : ℕ), (1 : ℕ), (0 : ℚ)), (1, 2, 0), (2, 1, 0), (2, 2, 0)].map
          (fun t => (t.1, t.2.1)) = [(1, 1), (1, 2), (2, 1), (2, 2)] ∧
      [((1 : ℕ), (1 : ℕ)), (1, 2), (2, 1), (2, 2)].map
          (collect_task (fun _ => [])) =
        [((1 : ℕ), (1 : ℕ), (0 : ℚ)), (1, 2, 0), (2, 1, 0), (2, 2, 0)].map
          (fun t => (t.1, t.2.1, some t.2.2)) :=
  sweep_order_preserved (fun _ => [])
    ⟨"double", 8, 1024, 32, 32, false, "size", 1, 3, 1⟩ (fun _ => [])
    (1, 3, 1) (1, 3, 1) 2 (by norm_num)
    [(1, 0), (2, 0), (3, 0)] [(1, 1, 0), (1, 2, 0), (2, 1, 0), (2, 2, 0)]
    [(1, 1), (1, 2), (2, 1), (2, 2)] rfl rfl rfl

/-- C9: for every 3-letter name over `{I, J, K}`, `name_to_order` succeeds
and `order_to_name` maps the resulting loop-macro triple back to the name:
the two representations round-trip losslessly. -/
theorem name_order_round_trip (s : String) (h3 : s.length = 3)
    (halpha : ∀ c ∈ s.data, c = 'I' ∨ c = 'J' ∨ c = 'K') :
    ∃ o, name_to_order s = some o ∧ order_to_name o = s := by
  obtain ⟨l⟩ := s
  have h3' : l.length = 3 := h3
  obtain ⟨a, b, c, rfl⟩ := List.length_eq_three.mp h3'
  have ha : a = 'I' ∨ a = 'J' ∨ a = 'K' := halpha a (by simp)
  have hb : b = 'I' ∨ b = 'J' ∨ b = 'K' := halpha b (by simp)
  have hc : c = 'I' ∨ c = 'J' ∨ c = 'K' := halpha c (by simp)
  rcases ha with rfl | rfl | rfl <;> rcases hb with rfl | rfl | rfl <;>
    rcases hc with rfl | rfl | rfl <;> exact ⟨_, rfl, rfl⟩

/-- C9 (witness): the round trip at the concrete name `"KJI"`. -/
theorem name_order_round_trip_witness :
    ∃ o, name_to_order "KJI" = some o ∧ order_to_name o = "KJI" :=
  name_order_round_trip "KJI" rfl (by decide)

/-- C10: in a `cache` sweep each unit gets `cache := i` and its associativity
recomputed as `i // block` (overriding any explicitly supplied value), all
other fields unchanged; in a `size` sweep each unit gets `size := i` and
keeps the pre-dispatch associativity and all other fields. -/
theorem batch_unit_frame (args : Args) (i : ℕ) :
    (args.batch = "cache" →
      (batch_unit args i).cache = i ∧
      (batch_unit args i).assoc = i / args.block ∧
      (batch_unit args i).size = args.size ∧
      (batch_unit args i).block = args.block ∧
      (batch_unit args i).dtype = args.dtype ∧
      (batch_unit args i).remove_cold = args.remove_cold ∧
      (batch_unit args i).batch = args.batch ∧
      (batch_unit args i).batch_start = args.batch_start ∧
      (batch_unit args i).batch_end = args.batch_end ∧
      (batch_unit args i).batch_step = args.batch_step) ∧
    (args.batch = "size" →
      (batch_unit args i).size = i ∧
      (batch_unit args i).assoc = args.assoc ∧
      (batch_unit args i).cache = args.cache ∧
      (batch_unit args i).block = args.block ∧
      (batch_unit args i).dtype = args.dtype ∧
      (batch_unit args i).remove_cold = args.remove_cold ∧
      (batch_unit args i).batch = args.batch ∧
      (batch_unit args i).batch_start = args.batch_start ∧
      (batch_unit args i).batch_end = args.batch_end ∧
      (batch_unit args i).batch_step = args.batch_step) := by
  constructor
  · intro h
    simp [batch_unit, h]
  · intro h
    have hne : args.batch ≠ "cache" := by rw [h]; decide
    simp [batch_unit, hne, h]

/-- C10 (witness): a `cache`-sweep unit at key 512 recomputes associativity
`512 // 32`; a `size`-sweep unit at key 64 keeps the pre-dispatch
associativity 99. -/
theorem batch_unit_frame_witness :
    (batch_unit ⟨"double", 128, 1024, 32, 99, false, "cache", 256, 1024, 256⟩
        512).assoc = 512 / 32 ∧
      (batch_unit ⟨"double", 128, 1024, 32, 99, false, "size", 8, 256, 8⟩
        64).size = 64 ∧
      (batch_unit ⟨"double", 128, 1024, 32, 99, false, "size", 8, 256, 8⟩
        64).assoc = 99 :=
  ⟨((batch_unit_frame ⟨"double", 128, 1024, 32, 99, false, "cache", 256, 1024,
      256⟩ 512).1 rfl).2.1,
   ((batch_unit_frame ⟨"double", 128, 1024, 32, 99, false, "size", 8, 256,
      8⟩ 64).2 rfl).1,
   ((batch_unit_frame ⟨"double", 128, 1024, 32, 99, false, "size", 8, 256,
      8⟩ 64).2 rfl).2.1⟩
